import Mathlib

/-!
Verification development for the `ad_trait_fuzzer` crate: a shallow embedding
of its expression model, AST generator, generic evaluator and oracle/tolerance
engine, together with theorems about the properties its design documentation
states.

Floating-point modelling convention: an `f64` is embedded as the type `F`
below, whose finite values are exact rationals (so decimal literals such as
`1e-12` are the exact rationals `1/10^12` and finite arithmetic is exact),
and whose special values NaN and the two infinities follow IEEE-754
propagation and comparison rules (`NaN` compares false, `inf - inf = NaN`,
Rust's NaN-ignoring `f64::max`, and so on).  All oracle logic in the source
consists of subtraction, `abs`, one multiplication by a positive constant,
`max` and a strict comparison, which this model reflects faithfully.
-/

namespace AdTraitFuzzer

/-- Model of an `f64` value: NaN, a signed infinity (`true` = positive
infinity), or a finite value idealized as an exact rational. -/
inductive F where
  | nan : F
  | inf : Bool → F
  | fin : ℚ → F
deriving DecidableEq, Repr

/-- IEEE subtraction on the `f64` model (`inf - inf` of equal sign is NaN). -/
def F.sub : F → F → F
  | .nan, _ => .nan
  | _, .nan => .nan
  | .inf a, .inf b => if a = b then .nan else .inf a
  | .inf a, .fin _ => .inf a
  | .fin _, .inf b => .inf (!b)
  | .fin a, .fin b => .fin (a - b)

/-- IEEE multiplication on the `f64` model (`inf * 0` is NaN). -/
def F.mul : F → F → F
  | .nan, _ => .nan
  | _, .nan => .nan
  | .inf a, .inf b => .inf (a == b)
  | .inf a, .fin q => if q = 0 then .nan else .inf (a == decide (0 < q))
  | .fin q, .inf b => if q = 0 then .nan else .inf (b == decide (0 < q))
  | .fin a, .fin b => .fin (a * b)

/-- `f64::abs`. -/
def F.abs : F → F
  | .nan => .nan
  | .inf _ => .inf true
  | .fin q => .fin |q|

/-- IEEE strict less-than: any comparison involving NaN is false. -/
def F.ltb : F → F → Bool
  | .nan, _ => false
  | _, .nan => false
  | .inf a, .inf b => !a && b
  | .inf a, .fin _ => !a
  | .fin _, .inf b => b
  | .fin a, .fin b => decide (a < b)

/-- Rust `f64::max`: NaN-ignoring maximum (if exactly one argument is NaN the
other argument is returned; both NaN gives NaN). -/
def F.fmax : F → F → F
  | .nan, y => y
  | x, .nan => x
  | x, y => if F.ltb x y then y else x

/-- `f64::is_nan`. -/
def F.isNan : F → Bool
  | .nan => true
  | _ => false

/-- `f64::is_finite`. -/
def F.isFinite : F → Bool
  | .fin _ => true
  | _ => false

/-- Rust `f64::clamp(min, max)`: NaN propagates (both comparisons are false). -/
def F.clamp (x lo hi : F) : F :=
  if F.ltb x lo then lo else if F.ltb hi x then hi else x

/-- Display form of an `F` value (used only by the string-building print
backend; the exact digits Rust's `{}` formatting produces are not modelled). -/
def F.fmt : F → String
  | .nan => "NaN"
  | .inf true => "inf"
  | .inf false => "-inf"
  | .fin q => toString q

/-! ## Oracle engine (src/oracles)

`EngineResults` and `GroundTruth` from `src/oracles/mod.rs`, and the two
oracle checks.  The Rust checks return `Result<(), Box<dyn Error>>` whose
error carries a long formatted diagnostic string (both raw values, absolute
and relative difference, the threshold); the numeric formatting of that
message is elided here and a fixed message kept, since only the pass/fail
outcome is the subject of the stated properties. -/

/-- `EngineResults` (src/oracles/mod.rs): input point plus the reverse-mode
and forward-mode Jacobians. -/
structure EngineResults where
  inputs : List F
  reverse : List F
  forward : List F

/-- `GroundTruth` (src/oracles/mod.rs): one ground-truth Jacobian with the
name of its source. -/
structure GroundTruth where
  name : String
  jacobian : List F

/-- `ADType` (src/oracles/ad_vs_pytorch.rs). -/
inductive ADType where
  | reverse : ADType
  | forward : ADType

/-- `ABS_TOLERANCE = 1e-12` (local constant in both oracle checks). -/
def ABS_TOLERANCE : F := F.fin (1 / 10 ^ 12)

/-- `REL_TOLERANCE = 1e-9` (local constant in both oracle checks). -/
def REL_TOLERANCE : F := F.fin (1 / 10 ^ 9)

/-- `ReverseVsForwardCheck::check` (src/oracles/reverse_vs_forward.rs lines
17-64).  Indexing `engine.reverse[i]` is modelled with `getD` (the stated
theorems only quantify over in-bounds indices).  Note the non-finite skip in
the source is commented out, and the failure condition is
`diff > threshold || (rev.is_nan() != fwd.is_nan())`. -/
def reverseVsForwardCheck (engine : EngineResults) (_gt : Option GroundTruth)
    (i : Nat) : Except String Unit :=
  let rev_result := engine.reverse.getD i F.nan
  let fwd_result := engine.forward.getD i F.nan
  let diff := (rev_result.sub fwd_result).abs
  let scaled_rel_threshold := fwd_result.abs.mul REL_TOLERANCE
  let threshold := ABS_TOLERANCE.fmax scaled_rel_threshold
  if F.ltb threshold diff || (rev_result.isNan != fwd_result.isNan) then
    Except.error "Reverse vs Forward failed! Gradients differ. (Hybrid Tolerance Check)"
  else
    Except.ok ()

/-- `ADVsGroundTruthCheck::check` (src/oracles/ad_vs_pytorch.rs lines 24-72).
Requires a ground truth, skips when the ground-truth entry is non-finite, and
otherwise fails exactly when `diff > threshold`; there is no NaN-mismatch
clause in this check. -/
def adVsGroundTruthCheck (adType : ADType) (engine : EngineResults)
    (gt : Option GroundTruth) (i : Nat) : Except String Unit :=
  match gt with
  | none => Except.error "AD vs Ground Truth check requires a ground truth input."
  | some gt =>
    let ad_val := match adType with
      | .reverse => engine.reverse.getD i F.nan
      | .forward => engine.forward.getD i F.nan
    let gt_val := gt.jacobian.getD i F.nan
    if !gt_val.isFinite then
      Except.ok ()
    else
      let diff := (ad_val.sub gt_val).abs
      let scaled_rel_threshold := gt_val.abs.mul REL_TOLERANCE
      let threshold := ABS_TOLERANCE.fmax scaled_rel_threshold
      if F.ltb threshold diff then
        Except.error "AD vs Ground Truth failed! (Hybrid Tolerance Check)"
      else
        Except.ok ()

/-- Whether an oracle check came back failing. -/
def isErr : Except String Unit → Bool
  | .error _ => true
  | .ok _ => false

/-- The AD-side value the ground-truth oracle compares, as selected by its
`ad_type` field (src/oracles/ad_vs_pytorch.rs lines 33-36). -/
def adValue (adType : ADType) (engine : EngineResults) (i : Nat) : F :=
  match adType with
  | .reverse => engine.reverse.getD i F.nan
  | .forward => engine.forward.getD i F.nan

/-- The hybrid failure predicate of the claims: `|a - b| > max(1e-12, |b| * 1e-9)`
with `b` the reference value. -/
def hybridExceeds (a b : F) : Bool :=
  F.ltb (ABS_TOLERANCE.fmax (b.abs.mul REL_TOLERANCE)) ((a.sub b).abs)

/-! ## Expression model (src/ast_expr.rs) -/

/-- `Op2` (src/ast_expr.rs): binary operators. -/
inductive Op2 where
  | add : Op2
  | sub : Op2
  | mul : Op2
  | div : Op2
  | pow : Op2
deriving DecidableEq, Repr

/-- `Op1` (src/ast_expr.rs): unary operators. -/
inductive Op1 where
  | neg : Op1
  | sin : Op1
  | cos : Op1
  | tan : Op1
  | exp : Op1
  | log : Op1
  | sqrt : Op1
  | abs : Op1
deriving DecidableEq, Repr

/-- `Type` (src/ast_expr.rs): type annotations for the cast node. -/
inductive Ty where
  | float : Ty
  | int : Ty
  | bool : Ty
deriving DecidableEq, Repr

/-- `Expr<T>` (src/ast_expr.rs): the tagged AST.  `letE` is the `Let` variant
(ordered bindings plus a body) and `breakE` the `Break` variant. -/
inductive Expr (T : Type) where
  | number : T → F → Expr T
  | boolean : T → Bool → Expr T
  | id : T → String → Expr T
  | letE : T → List (String × Expr T) → Expr T → Expr T
  | unOp : T → Op1 → Expr T → Expr T
  | binOp : T → Op2 → Expr T → Expr T → Expr T
  | ifE : T → Expr T → Expr T → Expr T → Expr T
  | loop : T → Expr T → Expr T
  | breakE : T → Expr T → Expr T
  | set : T → String → Expr T → Expr T
  | block : T → List (Expr T) → Expr T
  | cast : T → Ty → Expr T → Expr T

/-! ## Numeric capability interface and generic evaluator
(src/ast_evaluator/mod.rs) -/

/-- `Env<T>` (src/ast_evaluator/mod.rs): the variable-binding environment.
`HashMap<String, T>` is modelled as an association list where an insert
prepends and lookup takes the first match (so inserts replace). -/
def Env (α : Type) : Type := List (String × α)

/-- `HashMap::insert`. -/
def envInsert (env : Env α) (name : String) (v : α) : Env α :=
  (name, v) :: env

/-- `HashMap::get`. -/
def envLookup (env : Env α) (name : String) : Option α :=
  (env.find? (fun p => p.1 = name)).map (·.2)

/-- `MainBackend` (src/ast_evaluator/mod.rs lines 19-39): the numeric
capability interface, as a structure of operations. -/
structure MainBackend (α : Type) where
  fromF64 : F → α
  zero : α
  one : α
  neg : α → α
  sin : α → α
  cos : α → α
  tan : α → α
  exp : α → α
  log : α → α
  sqrt : α → α
  abs : α → α
  add : α → α → α
  sub : α → α → α
  mul : α → α → α
  div : α → α → α
  pow : α → α → α

mutual

/-- `evaluate` (src/ast_evaluator/mod.rs lines 42-106): the generic
tree-walking evaluator, parameterized by the capability interface. -/
def evaluate (B : MainBackend α) : Expr T → Env α → Except String α
  | .number _ val, _ => .ok (B.fromF64 val)
  | .boolean _ _, _ => .error "Boolean not supported in numeric expressions"
  | .id _ name, env =>
      match envLookup env name with
      | some v => .ok v
      | none => .error ("Variable '" ++ name ++ "' not found")
  | .unOp _ op sub_expr, env =>
      match evaluate B sub_expr env with
      | .error e => .error e
      | .ok val => .ok (match op with
          | .neg => B.neg val
          | .sin => B.sin val
          | .cos => B.cos val
          | .tan => B.tan val
          | .exp => B.exp val
          | .log => B.log val
          | .sqrt => B.sqrt val
          | .abs => B.abs val)
  | .binOp _ op left right, env =>
      match evaluate B left env with
      | .error e => .error e
      | .ok left_val =>
          match evaluate B right env with
          | .error e => .error e
          | .ok right_val => .ok (match op with
              | .add => B.add left_val right_val
              | .sub => B.sub left_val right_val
              | .mul => B.mul left_val right_val
              | .div => B.div left_val right_val
              | .pow => B.pow left_val right_val)
  | .letE _ bindings body, env =>
      match evalBindings B bindings env env with
      | .error e => .error e
      | .ok new_env => evaluate B body new_env
  | .block _ exprs, env => evalBlock B exprs env B.zero
  | .ifE _ _ _ _, _ => .error "Unsupported expression type"
  | .loop _ _, _ => .error "Unsupported expression type"
  | .breakE _ _, _ => .error "Unsupported expression type"
  | .set _ _ _, _ => .error "Unsupported expression type"
  | .cast _ _ _, _ => .error "Unsupported expression type"

/-- The `Let` binding loop of `evaluate`: each binding is evaluated against
the outer environment `env` and accumulated into `acc`. -/
def evalBindings (B : MainBackend α) : List (String × Expr T) → Env α → Env α →
    Except String (Env α)
  | [], _, acc => .ok acc
  | (name, e) :: rest, env, acc =>
      match evaluate B e env with
      | .error msg => .error msg
      | .ok val => evalBindings B rest env (envInsert acc name val)

/-- The `Block` loop of `evaluate`: every sub-expression is evaluated and the
last value returned (the empty block yields `zero`). -/
def evalBlock (B : MainBackend α) : List (Expr T) → Env α → α → Except String α
  | [], _, acc => .ok acc
  | e :: rest, env, _ =>
      match evaluate B e env with
      | .error msg => .error msg
      | .ok val => evalBlock B rest env val

end

/-! ## AD backend adapter (src/ast_evaluator/ad_backend.rs) -/

/-- `AdEvaluator` (src/ast_evaluator/ad_backend.rs lines 46-50). -/
structure AdEvaluator (T : Type) where
  expr : Expr T
  num_inputs : Nat
  num_outputs : Nat

/-- The environment `AdEvaluator::eval_expr` builds: `x_i` bound to the i-th
input. -/
def envOfInputs (inputs : List α) : Env α :=
  inputs.enum.foldl (fun env p => envInsert env ("x_" ++ toString p.1) p.2) []

/-- `AdEvaluator::eval_expr` (src/ast_evaluator/ad_backend.rs lines 54-65).
The Rust body returns the evaluator's value and on an evaluation error calls
`panic!("Error during AD evaluation: {}", e)`; the panic (process abort) is
modelled as an `Except.error` outcome carrying that message, which in
particular is distinct from every ordinary `Except.ok` result. -/
def AdEvaluator.evalExpr (B : MainBackend α) (c : AdEvaluator T)
    (inputs : List α) : Except String α :=
  match evaluate B c.expr (envOfInputs inputs) with
  | .ok result => .ok result
  | .error e => .error ("Error during AD evaluation: " ++ e)

/-- `SExprString`'s `MainBackend` implementation
(src/ast_evaluator/print_backend.rs lines 11-32): the string-building
S-expression backend, used here as a concrete in-repository instance of the
capability interface. -/
def sexprBackend : MainBackend String where
  fromF64 := fun val => val.fmt
  zero := "0"
  one := "1"
  neg := fun s => "(neg " ++ s ++ ")"
  sin := fun s => "(sin " ++ s ++ ")"
  cos := fun s => "(cos " ++ s ++ ")"
  tan := fun s => "(tan " ++ s ++ ")"
  exp := fun s => "(exp " ++ s ++ ")"
  log := fun s => "(log " ++ s ++ ")"
  sqrt := fun s => "(sqrt " ++ s ++ ")"
  abs := fun s => "(abs " ++ s ++ ")"
  add := fun a b => "(+ " ++ a ++ " " ++ b ++ ")"
  sub := fun a b => "(- " ++ a ++ " " ++ b ++ ")"
  mul := fun a b => "(* " ++ a ++ " " ++ b ++ ")"
  div := fun a b => "(/ " ++ a ++ " " ++ b ++ ")"
  pow := fun a b => "(pow " ++ a ++ " " ++ b ++ ")"

/-! ## AST generator (src/ast_generator.rs)

The generator consumes entropy from an `arbitrary::Unstructured` byte source,
which is an external dependency not part of this repository.  Its primitives
are modelled from the spec: "a byte-buffer-backed pseudo-random decision
source is consumed left-to-right; no byte is ever reused once interpreted,
and running out of bytes is a hard failure (`GenerationError::Exhausted`),
never a silent default".  Each primitive below therefore consumes bytes from
the front of the buffer and fails with `NotEnoughData` when none are left.
Rust panics reachable from the generator itself (the `usize` subtraction
`max_variables - var_stack.len()` and slice indexing) are modelled as the
distinguished outcome `panicked`. -/

/-- `arbitrary::Error` as used by the generator (`NotEnoughData`). -/
inductive ArbError where
  | notEnoughData : ArbError
deriving DecidableEq, Repr

/-- The generator's mutable state: the remaining entropy bytes of the
`Unstructured` source, plus the `used_vars` set (a `HashSet<usize>`, modelled
by its list of elements in insertion order) and the `var_stack`. -/
structure GenState where
  data : List Nat
  usedVars : List Nat
  varStack : List Nat
deriving DecidableEq, Repr

/-- Outcome of a generator step: success with a value and the updated state,
an `arbitrary` error propagated with `?`, or a Rust panic. -/
inductive GenOut (α : Type) where
  | ok : α → GenState → GenOut α
  | err : ArbError → GenOut α
  | panicked : GenOut α
deriving DecidableEq, Repr

/-- Modelled from the spec: `Unstructured::int_in_range(lo..=hi)` — consumes
one byte from the front of the buffer and maps it into the inclusive range;
an empty buffer is a hard failure. -/
def intInRange (lo hi : Nat) (s : GenState) : GenOut Nat :=
  match s.data with
  | [] => .err .notEnoughData
  | b :: rest => .ok (lo + b % (hi - lo + 1)) { s with data := rest }

/-- Modelled from the spec: `Unstructured::ratio(a, b)` — a decision that is
true with probability `a/b`, consuming one byte; an empty buffer is a hard
failure. -/
def ratioDraw (a b : Nat) (s : GenState) : GenOut Bool :=
  match s.data with
  | [] => .err .notEnoughData
  | c :: rest => .ok (decide (c % b < a)) { s with data := rest }

/-- Modelled from the spec: `u.arbitrary::<f64>()` — decodes one double from
eight entropy bytes (the byte-to-value map is idealized as an exact integer;
no generated property depends on the literal's value), hard failure when
fewer than eight bytes remain. -/
def arbitraryF64 (s : GenState) : GenOut F :=
  if 8 ≤ s.data.length then
    .ok (F.fin (((s.data.take 8).foldl (fun acc b => acc * 256 + b) 0 : Nat) : ℚ))
      { s with data := s.data.drop 8 }
  else
    .err .notEnoughData

/-- `HashSet::insert` on the insertion-ordered element list. -/
def insertVar (l : List Nat) (n : Nat) : List Nat :=
  if n ∈ l then l else l ++ [n]

/-- `AstGenConfig` (src/ast_generator.rs lines 8-15). -/
structure AstGenConfig where
  maxDepth : Nat
  maxVariables : Nat
  allowDivision : Bool
  allowPower : Bool
  allowLog : Bool
deriving DecidableEq, Repr

/-- `GeneratedExpr` (src/ast_generator.rs lines 17-22). -/
structure GeneratedExpr where
  expr : Expr Unit
  usedVars : List Nat
  numInputs : Nat

/-- The unary operator selected by `generate_unary` from a drawn choice in
`0..=5` (src/ast_generator.rs lines 145-160): the choice is reduced to 4
(sqrt) when log is disabled, and the final `_ => Op1::Abs` arm is reachable
only for choices `≥ 6`, which the draw range never produces. -/
def unaryOpFromChoice (allow_log : Bool) (c : Nat) : Op1 :=
  let op_choice := if !allow_log && 5 ≤ c then 4 else c
  match op_choice with
  | 0 => Op1.neg
  | 1 => Op1.sin
  | 2 => Op1.cos
  | 3 => Op1.exp
  | 4 => Op1.sqrt
  | 5 => Op1.log
  | _ => Op1.abs

/-- `num_ops` as computed by `generate_binary` (src/ast_generator.rs lines
175-181): 3 always-enabled operators plus one for division and one for
power when enabled. -/
def numOps (config : AstGenConfig) : Nat :=
  3 + (if config.allowDivision then 1 else 0) + (if config.allowPower then 1 else 0)

/-- The binary operator selected by `generate_binary` from a drawn choice in
`0..=num_ops-1` (src/ast_generator.rs lines 185-192): the guarded match arms
`3 if allow_division => Div` and `4 if allow_power => Pow` fall through to
the `_ => Op2::Add` default when their guard fails. -/
def binOpFromChoice (config : AstGenConfig) (op_choice : Nat) : Op2 :=
  match op_choice with
  | 0 => Op2.add
  | 1 => Op2.sub
  | 2 => Op2.mul
  | 3 => if config.allowDivision then Op2.div else Op2.add
  | 4 => if config.allowPower then Op2.pow else Op2.add
  | _ => Op2.add

/-- `generate_terminal` (src/ast_generator.rs lines 83-134).  A 2-in-5 ratio
decision selects variable vs. literal; the variable path errors on an empty
buffer, computes `num_available = max_variables - var_stack.len()` (a `usize`
subtraction that panics on underflow, modelled by the explicit
`maxVariables < varStack.length` test), and either force-introduces `x_0`,
reuses an existing index, or introduces the next fresh index
`var_stack.len()`; the literal path draws one of 0.0, 1.0, 2.0, a clamped
arbitrary double, or an absolute clamped arbitrary double. -/
def generateTerminal (config : AstGenConfig) (s : GenState) : GenOut (Expr Unit) :=
  match ratioDraw 2 5 s with
  | .err e => .err e
  | .panicked => .panicked
  | .ok isVar s1 =>
    if isVar then
      if s1.data.isEmpty then
        .err .notEnoughData
      else
        let num_used := s1.usedVars.length
        if config.maxVariables < s1.varStack.length then
          .panicked
        else
          let num_available := config.maxVariables - s1.varStack.length
          if num_used = 0 then
            .ok (Expr.id () ("x_" ++ toString 0))
              { s1 with varStack := s1.varStack ++ [0],
                        usedVars := insertVar s1.usedVars 0 }
          else if num_available = 0 then
            let existing := s1.usedVars
            match intInRange 0 (existing.length - 1) s1 with
            | .err e => .err e
            | .panicked => .panicked
            | .ok idx s2 =>
                match existing.get? idx with
                | some var_idx => .ok (Expr.id () ("x_" ++ toString var_idx)) s2
                | none => .panicked
          else
            match ratioDraw num_used (num_used + num_available) s1 with
            | .err e => .err e
            | .panicked => .panicked
            | .ok reuse s2 =>
              if reuse then
                let existing := s2.usedVars
                match intInRange 0 (existing.length - 1) s2 with
                | .err e => .err e
                | .panicked => .panicked
                | .ok idx s3 =>
                    match existing.get? idx with
                    | some var_idx => .ok (Expr.id () ("x_" ++ toString var_idx)) s3
                    | none => .panicked
              else
                let new_idx := s2.varStack.length
                .ok (Expr.id () ("x_" ++ toString new_idx))
                  { s2 with varStack := s2.varStack ++ [new_idx],
                            usedVars := insertVar s2.usedVars new_idx }
    else
      match intInRange 0 4 s1 with
      | .err e => .err e
      | .panicked => .panicked
      | .ok c s2 =>
        match c with
        | 0 => .ok (Expr.number () (F.fin 0)) s2
        | 1 => .ok (Expr.number () (F.fin 1)) s2
        | 2 => .ok (Expr.number () (F.fin 2)) s2
        | 3 =>
            match arbitraryF64 s2 with
            | .err e => .err e
            | .panicked => .panicked
            | .ok v s3 =>
                .ok (Expr.number () (v.clamp (F.fin (-10)) (F.fin 10))) s3
        | _ =>
            match arbitraryF64 s2 with
            | .err e => .err e
            | .panicked => .panicked
            | .ok v s3 =>
                .ok (Expr.number () (v.abs.clamp (F.fin (1 / 10)) (F.fin 5))) s3

mutual

/-- `generate_expr_arbitrary` (src/ast_generator.rs lines 63-81): terminals
only at or beyond `max_depth`, otherwise a uniform 3-way choice between a
terminal, a unary node and a binary node.  The proof argument threaded to
`generateUnary`/`generateBinary` records that they are only invoked strictly
below the depth bound and serves the termination measure. -/
def generateExprArbitrary (config : AstGenConfig) (depth : Nat) (s : GenState) :
    GenOut (Expr Unit) :=
  if _h : config.maxDepth ≤ depth then
    generateTerminal config s
  else
    match intInRange 0 2 s with
    | .err e => .err e
    | .panicked => .panicked
    | .ok c s1 =>
      match c with
      | 0 => generateTerminal config s1
      | 1 => generateUnary config depth (by omega) s1
      | _ => generateBinary config depth (by omega) s1
termination_by 2 * (config.maxDepth - depth) + 1
decreasing_by all_goals omega

/-- `generate_unary` (src/ast_generator.rs lines 136-163): generate the
operand one level deeper, then select the operator from a draw in `0..=5`. -/
def generateUnary (config : AstGenConfig) (depth : Nat)
    (h : depth < config.maxDepth) (s : GenState) : GenOut (Expr Unit) :=
  match generateExprArbitrary config (depth + 1) s with
  | .err e => .err e
  | .panicked => .panicked
  | .ok sub_expr s1 =>
    match intInRange 0 5 s1 with
    | .err e => .err e
    | .panicked => .panicked
    | .ok op_choice s2 =>
        .ok (Expr.unOp () (unaryOpFromChoice config.allowLog op_choice) sub_expr) s2
termination_by 2 * (config.maxDepth - depth)
decreasing_by omega

/-- `generate_binary` (src/ast_generator.rs lines 165-195): generate both
operands one level deeper, then select the operator from a draw in
`0..=num_ops-1`. -/
def generateBinary (config : AstGenConfig) (depth : Nat)
    (h : depth < config.maxDepth) (s : GenState) : GenOut (Expr Unit) :=
  match generateExprArbitrary config (depth + 1) s with
  | .err e => .err e
  | .panicked => .panicked
  | .ok left s1 =>
    match generateExprArbitrary config (depth + 1) s1 with
    | .err e => .err e
    | .panicked => .panicked
    | .ok right s2 =>
      match intInRange 0 (numOps config - 1) s2 with
      | .err e => .err e
      | .panicked => .panicked
      | .ok op_choice s3 =>
          .ok (Expr.binOp () (binOpFromChoice config op_choice) left right) s3
termination_by 2 * (config.maxDepth - depth)
decreasing_by all_goals omega

end

/-- `generate_from_bytes` (src/ast_generator.rs lines 198-211): fresh state,
one expression, `num_inputs = used_vars.len()`. -/
def generateFromBytes (data : List Nat) (config : AstGenConfig) :
    GenOut GeneratedExpr :=
  match generateExprArbitrary config 0 { data := data, usedVars := [], varStack := [] } with
  | .err e => .err e
  | .panicked => .panicked
  | .ok expr s =>
      .ok { expr := expr, usedVars := s.usedVars, numInputs := s.usedVars.length } s

/-- Depth of the unary/binary operator chain of an expression (terminals are
depth 0).  Generated expressions consist only of terminal, unary and binary
nodes, for which this is exactly the tree depth the claims bound. -/
def exprDepth : Expr T → Nat
  | .unOp _ _ e => exprDepth e + 1
  | .binOp _ _ l r => max (exprDepth l) (exprDepth r) + 1
  | _ => 0

/-- The variable names referenced by an expression, restricted to the
terminal/unary/binary fragment the generator emits. -/
def exprVarNames : Expr T → List String
  | .id _ name => [name]
  | .unOp _ _ e => exprVarNames e
  | .binOp _ _ l r => exprVarNames l ++ exprVarNames r
  | _ => []

/-- The generator's variable-tracking invariant: `used_vars` and `var_stack`
both hold exactly the indices `0 .. var_stack.len() - 1`, in order. -/
def VarInv (s : GenState) : Prop :=
  s.usedVars = List.range s.varStack.length
  ∧ s.varStack = List.range s.varStack.length

/-- Everything a successful generator call guarantees: the variable invariant
is preserved, the stack only grows and stays within `max 1 max_variables`,
the produced expression fits the remaining depth budget, every variable name
it references is a tracked `x_i`, and every newly tracked index is referenced
by the expression. -/
def SuccessProps (config : AstGenConfig) (depth : Nat) (s : GenState)
    (r : GenOut (Expr Unit)) : Prop :=
  ∀ e s', r = GenOut.ok e s' →
    VarInv s'
    ∧ s'.varStack.length ≤ max 1 config.maxVariables
    ∧ s.varStack.length ≤ s'.varStack.length
    ∧ exprDepth e ≤ config.maxDepth - depth
    ∧ (∀ n ∈ exprVarNames e, ∃ i ∈ s'.usedVars, n = "x_" ++ toString i)
    ∧ (∀ i ∈ s'.usedVars, i ∈ s.usedVars ∨ ("x_" ++ toString i) ∈ exprVarNames e)

theorem F.sub_nan (a : F) : a.sub F.nan = F.nan := by cases a <;> rfl

theorem F.ltb_nan (a : F) : F.ltb a F.nan = false := by cases a <;> rfl

theorem F.isNan_true {a : F} (h : a.isNan = true) : a = F.nan := by
  cases a <;> simp [F.isNan] at h ⊢

/-- When the reference value is non-finite, the hybrid threshold comparison is
never exceeded: for an infinite reference the threshold itself is `+inf`, and
for a NaN reference the difference is NaN. -/
theorem hybridExceeds_of_not_finite (a b : F) (hb : b.isFinite = false) :
    hybridExceeds a b = false := by
  cases b with
  | nan => simp [hybridExceeds, F.sub_nan, F.abs, F.ltb_nan]
  | inf s =>
      have hth : ABS_TOLERANCE.fmax ((F.inf s).abs.mul REL_TOLERANCE) = F.inf true := by
        have h9 : (0 : ℚ) < 1 / 10 ^ 9 := by norm_num
        simp [F.abs, F.mul, REL_TOLERANCE, ABS_TOLERANCE, F.fmax, F.ltb,
          ne_of_gt h9, decide_eq_true h9]
      rw [hybridExceeds, hth]
      cases a with
      | nan => simp [F.sub, F.abs, F.ltb]
      | inf t => by_cases hts : t = s <;> simp [F.sub, hts, F.abs, F.ltb]
      | fin q => simp [F.sub, F.abs, F.ltb]
  | fin q => simp [F.isFinite] at hb

/-- The reverse-vs-forward check fails exactly when the hybrid threshold is
exceeded or the two values disagree on NaN-ness. -/
theorem reverseVsForwardCheck_isErr (engine : EngineResults)
    (gt : Option GroundTruth) (i : Nat) :
    isErr (reverseVsForwardCheck engine gt i) =
      (hybridExceeds (engine.reverse.getD i F.nan) (engine.forward.getD i F.nan)
        || ((engine.reverse.getD i F.nan).isNan != (engine.forward.getD i F.nan).isNan)) := by
  simp only [reverseVsForwardCheck, hybridExceeds]
  split <;> simp_all [isErr]

/-- The ground-truth check (with a ground truth supplied) fails exactly when
the hybrid threshold is exceeded; the non-finite skip changes nothing because
a non-finite reference can never exceed the threshold. -/
theorem adVsGroundTruthCheck_isErr (adty : ADType) (engine : EngineResults)
    (g : GroundTruth) (i : Nat) :
    isErr (adVsGroundTruthCheck adty engine (some g) i) =
      hybridExceeds (adValue adty engine i) (g.jacobian.getD i F.nan) := by
  simp only [adVsGroundTruthCheck, adValue]
  cases hb : g.jacobian.getD i F.nan with
  | nan =>
      rw [hybridExceeds_of_not_finite _ _ (by simp [F.isFinite])]
      cases adty <;> simp [hb, F.isFinite, isErr]
  | inf s =>
      rw [hybridExceeds_of_not_finite _ _ (by simp [F.isFinite])]
      cases adty <;> simp [hb, F.isFinite, isErr]
  | fin q =>
      have hif : ∀ c : Bool, isErr (if c = true then
          Except.error "AD vs Ground Truth failed! (Hybrid Tolerance Check)"
          else Except.ok ()) = c := by
        intro c; cases c <;> rfl
      cases adty <;> simp [hb, F.isFinite, hif, hybridExceeds]

/-- If two values disagree on NaN-ness then the hybrid threshold comparison is
false: either the reference is NaN (non-finite) or the checked value is NaN,
making the difference NaN. -/
theorem hybridExceeds_of_nan_mismatch (a b : F) (h : a.isNan ≠ b.isNan) :
    hybridExceeds a b = false := by
  cases b with
  | nan => exact hybridExceeds_of_not_finite a _ rfl
  | inf s => exact hybridExceeds_of_not_finite a _ rfl
  | fin q =>
      have ha : a = F.nan := by cases a <;> simp [F.isNan] at h ⊢
      subst ha
      simp [hybridExceeds, F.sub, F.abs, F.ltb_nan]

theorem eq_ok_of_isErr_false {c : Except String Unit} (h : isErr c = false) :
    c = Except.ok () := by
  cases c with
  | ok u => cases u; rfl
  | error e => simp [isErr] at h

/-- C1 (counterexample): with reverse = NaN and forward = 1.0 the
reverse-vs-forward check fails although `|a - b| > max(1e-12, |b| * 1e-9)` does
not hold (the NaN difference compares false against the threshold), so the
check does not fail *exactly* when the hybrid threshold is exceeded. -/
theorem c1_hybrid_exactly_counterexample :
    isErr (reverseVsForwardCheck ⟨[F.fin 1], [F.nan], [F.fin 1]⟩ none 0) = true
    ∧ hybridExceeds F.nan (F.fin 1) = false := by
  constructor
  · rw [reverseVsForwardCheck_isErr]
    simp [hybridExceeds, F.sub, F.abs, F.ltb_nan, F.isNan]
  · simp [hybridExceeds, F.sub, F.abs, F.ltb_nan]

/-- C1 (amended): the AD-vs-ground-truth check fails exactly when
`|a - b| > max(1e-12, |b| * 1e-9)` with `b` the ground-truth entry; the
reverse-vs-forward check fails exactly when that threshold is exceeded OR
exactly one of the two values is NaN.  For `b = 0` the threshold is `1e-12`
and for `b = 1e6` it is `1e-3`. -/
theorem c1_hybrid_tolerance_amended (engine : EngineResults) (g : GroundTruth)
    (adty : ADType) (i : Nat)
    (hr : i < engine.reverse.length) (hf : i < engine.forward.length)
    (hg : i < g.jacobian.length) :
    (isErr (adVsGroundTruthCheck adty engine (some g) i) =
      hybridExceeds (adValue adty engine i) (g.jacobian.getD i F.nan))
    ∧ (isErr (reverseVsForwardCheck engine none i) =
      (hybridExceeds (engine.reverse.getD i F.nan) (engine.forward.getD i F.nan)
        || ((engine.reverse.getD i F.nan).isNan != (engine.forward.getD i F.nan).isNan)))
    ∧ ABS_TOLERANCE.fmax ((F.fin 0).abs.mul REL_TOLERANCE) = F.fin (1 / 10 ^ 12)
    ∧ ABS_TOLERANCE.fmax ((F.fin (10 ^ 6)).abs.mul REL_TOLERANCE) = F.fin (1 / 10 ^ 3) := by
  refine ⟨adVsGroundTruthCheck_isErr adty engine g i,
    reverseVsForwardCheck_isErr engine none i, ?_, ?_⟩
  · have h1 : ¬ ((1 : ℚ) / 10 ^ 12 < 0) := by norm_num
    simp [ABS_TOLERANCE, REL_TOLERANCE, F.abs, F.mul, F.fmax, F.ltb, decide_eq_false h1]
  · have h2 : (1 : ℚ) / 10 ^ 12 < 10 ^ 6 * (1 / 10 ^ 9) := by norm_num
    have h3 : |(10 : ℚ) ^ 6| = 10 ^ 6 := abs_of_nonneg (by norm_num)
    simp [ABS_TOLERANCE, REL_TOLERANCE, F.abs, F.mul, F.fmax, F.ltb, h3, decide_eq_true h2]
    norm_num

/-- C1 witness: the amended characterization applied at a concrete in-bounds
index. -/
theorem c1_hybrid_tolerance_amended_witness :
    (isErr (adVsGroundTruthCheck .reverse ⟨[F.fin 1], [F.fin 1], [F.fin 1]⟩
        (some ⟨"PyTorch", [F.fin 1]⟩) 0) =
      hybridExceeds (adValue .reverse ⟨[F.fin 1], [F.fin 1], [F.fin 1]⟩ 0)
        ((GroundTruth.mk "PyTorch" [F.fin 1]).jacobian.getD 0 F.nan))
    ∧ (isErr (reverseVsForwardCheck ⟨[F.fin 1], [F.fin 1], [F.fin 1]⟩ none 0) =
      (hybridExceeds ((EngineResults.mk [F.fin 1] [F.fin 1] [F.fin 1]).reverse.getD 0 F.nan)
          ((EngineResults.mk [F.fin 1] [F.fin 1] [F.fin 1]).forward.getD 0 F.nan)
        || (((EngineResults.mk [F.fin 1] [F.fin 1] [F.fin 1]).reverse.getD 0 F.nan).isNan
            != ((EngineResults.mk [F.fin 1] [F.fin 1] [F.fin 1]).forward.getD 0 F.nan).isNan)))
    ∧ ABS_TOLERANCE.fmax ((F.fin 0).abs.mul REL_TOLERANCE) = F.fin (1 / 10 ^ 12)
    ∧ ABS_TOLERANCE.fmax ((F.fin (10 ^ 6)).abs.mul REL_TOLERANCE) = F.fin (1 / 10 ^ 3) :=
  c1_hybrid_tolerance_amended ⟨[F.fin 1], [F.fin 1], [F.fin 1]⟩ ⟨"PyTorch", [F.fin 1]⟩
    .reverse 0 (by decide) (by decide) (by decide)

/-- C2 (counterexample): for the AD-vs-ground-truth check, an AD value of NaN
against a finite ground truth of 1.0 is a NaN mismatch, yet the check returns
success (the NaN difference never exceeds the threshold), so it is not true
that every oracle check of either kind fails on a NaN mismatch. -/
theorem c2_nan_mismatch_counterexample :
    (F.nan.isNan != (F.fin 1).isNan) = true
    ∧ adVsGroundTruthCheck .reverse ⟨[F.fin 1], [F.nan], [F.fin 1]⟩
        (some ⟨"PyTorch", [F.fin 1]⟩) 0 = Except.ok () := by
  refine ⟨rfl, eq_ok_of_isErr_false ?_⟩
  rw [adVsGroundTruthCheck_isErr]
  exact hybridExceeds_of_nan_mismatch _ _ (by simp [adValue, F.isNan])

/-- C2 (amended): only the reverse-vs-forward check fails when exactly one of
the two compared values is NaN; the AD-vs-ground-truth check returns success
on every NaN mismatch (either the ground truth is non-finite and the check is
skipped, or the difference is NaN and never exceeds the threshold). -/
theorem c2_nan_mismatch_amended (engine : EngineResults) (g : GroundTruth)
    (adty : ADType) (i : Nat)
    (hr : i < engine.reverse.length) (hf : i < engine.forward.length)
    (hg : i < g.jacobian.length) :
    ((engine.reverse.getD i F.nan).isNan ≠ (engine.forward.getD i F.nan).isNan →
      isErr (reverseVsForwardCheck engine none i) = true)
    ∧ ((adValue adty engine i).isNan ≠ (g.jacobian.getD i F.nan).isNan →
      adVsGroundTruthCheck adty engine (some g) i = Except.ok ()) := by
  constructor
  · intro h
    rw [reverseVsForwardCheck_isErr]
    simp only [Bool.or_eq_true, bne_iff_ne]
    exact Or.inr h
  · intro h
    exact eq_ok_of_isErr_false
      ((adVsGroundTruthCheck_isErr adty engine g i).trans
        (hybridExceeds_of_nan_mismatch _ _ h))

/-- C2 witness: the amended statement applied at a concrete NaN mismatch. -/
theorem c2_nan_mismatch_amended_witness :
    isErr (reverseVsForwardCheck ⟨[F.fin 1], [F.nan], [F.fin 1]⟩ none 0) = true
    ∧ adVsGroundTruthCheck .reverse ⟨[F.fin 1], [F.nan], [F.fin 1]⟩
        (some ⟨"PyTorch", [F.fin 1]⟩) 0 = Except.ok () := by
  have h := c2_nan_mismatch_amended ⟨[F.fin 1], [F.nan], [F.fin 1]⟩
    ⟨"PyTorch", [F.fin 1]⟩ .reverse 0 (by decide) (by decide) (by decide)
  exact ⟨h.1 (by decide), h.2 (by decide)⟩

/-- C3 (counterexample): the reverse-vs-forward check with a non-finite
reference value (forward = NaN) and reverse = 0.0 returns an error, not
success: its non-finite skip is commented out in the source, so the claim
that every check of either kind skips a non-finite reference is false. -/
theorem c3_nonfinite_skip_counterexample :
    F.nan.isFinite = false
    ∧ isErr (reverseVsForwardCheck ⟨[F.fin 1], [F.fin 0], [F.nan]⟩ none 0) = true := by
  refine ⟨rfl, ?_⟩
  rw [reverseVsForwardCheck_isErr]
  simp [F.isNan, hybridExceeds, F.sub_nan, F.abs, F.ltb_nan]

/-- C3 (amended): only the AD-vs-ground-truth check skips a non-finite
reference and returns success; the reverse-vs-forward check performs no such
skip: with a non-finite forward value it fails precisely when the two values
disagree on NaN-ness (for an infinite forward value the threshold itself is
infinite, so only the NaN-mismatch clause can fire). -/
theorem c3_nonfinite_reference_amended (engine : EngineResults) (g : GroundTruth)
    (adty : ADType) (i : Nat)
    (hr : i < engine.reverse.length) (hf : i < engine.forward.length)
    (hg : i < g.jacobian.length) :
    ((g.jacobian.getD i F.nan).isFinite = false →
      adVsGroundTruthCheck adty engine (some g) i = Except.ok ())
    ∧ ((engine.forward.getD i F.nan).isFinite = false →
      isErr (reverseVsForwardCheck engine none i) =
        ((engine.reverse.getD i F.nan).isNan != (engine.forward.getD i F.nan).isNan)) := by
  constructor
  · intro h
    exact eq_ok_of_isErr_false
      ((adVsGroundTruthCheck_isErr adty engine g i).trans
        (hybridExceeds_of_not_finite _ _ h))
  · intro h
    rw [reverseVsForwardCheck_isErr, hybridExceeds_of_not_finite _ _ h, Bool.false_or]

/-- C3 witness: the amended statement applied with an infinite ground truth
and a NaN forward value. -/
theorem c3_nonfinite_reference_amended_witness :
    adVsGroundTruthCheck .reverse ⟨[F.fin 1], [F.fin 0], [F.nan]⟩
        (some ⟨"PyTorch", [F.inf true]⟩) 0 = Except.ok ()
    ∧ isErr (reverseVsForwardCheck ⟨[F.fin 1], [F.fin 0], [F.nan]⟩ none 0) =
        (((F.fin 0).isNan) != (F.nan.isNan)) := by
  have h := c3_nonfinite_reference_amended ⟨[F.fin 1], [F.fin 0], [F.nan]⟩
    ⟨"PyTorch", [F.inf true]⟩ .reverse 0 (by decide) (by decide) (by decide)
  exact ⟨h.1 (by decide), h.2 (by decide)⟩

/-- C8 (counterexample): an unsupported-node evaluation error (a Boolean
literal in a numeric context) is not recovered by substituting zero: the AD
backend adapter escalates it to a `panic!` (modelled as the error outcome
carrying the panic message), which is not the zero value of the backend. -/
theorem c8_zero_substitution_counterexample :
    evaluate sexprBackend (Expr.boolean () true) ([] : Env String) =
      Except.error "Boolean not supported in numeric expressions"
    ∧ AdEvaluator.evalExpr sexprBackend ⟨Expr.boolean () true, 0, 1⟩ ([] : List String) =
        Except.error "Error during AD evaluation: Boolean not supported in numeric expressions"
    ∧ AdEvaluator.evalExpr sexprBackend ⟨Expr.boolean () true, 0, 1⟩ ([] : List String) ≠
        Except.ok sexprBackend.zero := by
  exact ⟨rfl, rfl, by simp [AdEvaluator.evalExpr, evaluate]⟩

/-- C8 (amended): an evaluation error from the generic evaluator (unbound
variable, unsupported node, Boolean in numeric context) is never turned into
a zero result by the AD backend adapter; `AdEvaluator::eval_expr` escalates
every such error to a process-aborting `panic!` whose message wraps the
evaluator's error. -/
theorem c8_eval_error_escalates (B : MainBackend α) (c : AdEvaluator T)
    (inputs : List α) (e : String)
    (h : evaluate B c.expr (envOfInputs inputs) = Except.error e) :
    AdEvaluator.evalExpr B c inputs =
      Except.error ("Error during AD evaluation: " ++ e) := by
  simp [AdEvaluator.evalExpr, h]

/-- C8 witness: the escalation theorem applied to the Boolean-literal
evaluation error under the S-expression string backend. -/
theorem c8_eval_error_escalates_witness :
    AdEvaluator.evalExpr sexprBackend ⟨Expr.boolean () true, 0, 1⟩ ([] : List String) =
      Except.error ("Error during AD evaluation: " ++
        "Boolean not supported in numeric expressions") :=
  c8_eval_error_escalates sexprBackend ⟨Expr.boolean () true, 0, 1⟩ [] _ rfl

theorem intInRange_ok {lo hi : Nat} {s : GenState} {v : Nat} {s' : GenState}
    (h : intInRange lo hi s = .ok v s') :
    s'.usedVars = s.usedVars ∧ s'.varStack = s.varStack
    ∧ lo ≤ v ∧ v < lo + (hi - lo + 1) := by
  unfold intInRange at h
  cases hd : s.data with
  | nil => rw [hd] at h; cases h
  | cons b rest =>
      rw [hd] at h
      cases h
      refine ⟨rfl, rfl, Nat.le_add_right _ _, ?_⟩
      have : b % (hi - lo + 1) < hi - lo + 1 := Nat.mod_lt b (Nat.succ_pos _)
      omega

theorem ratioDraw_ok {a b : Nat} {s : GenState} {v : Bool} {s' : GenState}
    (h : ratioDraw a b s = .ok v s') :
    s'.usedVars = s.usedVars ∧ s'.varStack = s.varStack := by
  unfold ratioDraw at h
  cases hd : s.data with
  | nil => rw [hd] at h; cases h
  | cons c rest => rw [hd] at h; cases h; exact ⟨rfl, rfl⟩

theorem arbitraryF64_ok {s : GenState} {v : F} {s' : GenState}
    (h : arbitraryF64 s = .ok v s') :
    s'.usedVars = s.usedVars ∧ s'.varStack = s.varStack := by
  unfold arbitraryF64 at h
  split at h
  · cases h; exact ⟨rfl, rfl⟩
  · cases h

theorem varInv_push {uv vs : List Nat} (h1 : uv = List.range vs.length)
    (h2 : vs = List.range vs.length) :
    insertVar uv vs.length = List.range (vs.length + 1)
    ∧ vs ++ [vs.length] = List.range (vs.length + 1) := by
  constructor
  · rw [insertVar, if_neg (by simp [h1])]
    rw [List.range_succ, h1]
  · nth_rewrite 1 [h2]
    rw [List.range_succ]

theorem generateTerminal_success (config : AstGenConfig) (depth : Nat)
    (s : GenState) (hInv : VarInv s)
    (hk : s.varStack.length ≤ max 1 config.maxVariables) :
    SuccessProps config depth s (generateTerminal config s) := by
  intro e s' hr
  obtain ⟨huv, hvs⟩ := hInv
  unfold generateTerminal at hr
  cases hd : s.data with
  | nil => rw [ratioDraw, hd] at hr; cases hr
  | cons b rest =>
  rw [ratioDraw, hd] at hr
  simp only at hr
  by_cases hV : decide (b % 5 < 2) = true
  case neg =>
    -- literal path: variable tracking untouched, no variables referenced
    rw [if_neg hV, intInRange] at hr
    have hlit : ∀ (q : F) (st : GenState), GenOut.ok (Expr.number () q) st = GenOut.ok e s' →
        st.usedVars = s.usedVars → st.varStack = s.varStack →
        VarInv s' ∧ s'.varStack.length ≤ max 1 config.maxVariables
        ∧ s.varStack.length ≤ s'.varStack.length
        ∧ exprDepth e ≤ config.maxDepth - depth
        ∧ (∀ n ∈ exprVarNames e, ∃ i ∈ s'.usedVars, n = "x_" ++ toString i)
        ∧ (∀ i ∈ s'.usedVars, i ∈ s.usedVars ∨ ("x_" ++ toString i) ∈ exprVarNames e) := by
      intro q st hok h1 h2
      cases hok
      refine ⟨⟨?_, ?_⟩, ?_, ?_, ?_, ?_, ?_⟩
      · rw [h1, h2]; exact huv
      · rw [h2]; exact hvs
      · rw [h2]; exact hk
      · rw [h2]
      · simp [exprDepth]
      · simp [exprVarNames]
      · intro i hi; rw [h1] at hi; exact Or.inl hi
    cases rest with
    | nil => simp only at hr; cases hr
    | cons c rest2 =>
      simp only at hr
      split at hr
      · exact hlit _ _ hr rfl rfl
      · exact hlit _ _ hr rfl rfl
      · exact hlit _ _ hr rfl rfl
      · rw [arbitraryF64] at hr
        split at hr
        · cases hr
        · cases hr
        · rename_i v s3 heq
          split at heq
          · cases heq
            exact hlit _ _ hr rfl rfl
          · cases heq
      · rw [arbitraryF64] at hr
        split at hr
        · cases hr
        · cases hr
        · rename_i v s3 heq
          split at heq
          · cases heq
            exact hlit _ _ hr rfl rfl
          · cases heq
  case pos =>
    rw [if_pos hV] at hr
    by_cases hempty : rest.isEmpty
    · rw [if_pos hempty] at hr; cases hr
    rw [if_neg hempty] at hr
    by_cases hover : config.maxVariables < s.varStack.length
    · rw [if_pos hover] at hr; cases hr
    rw [if_neg hover] at hr
    by_cases hzero : s.usedVars.length = 0
    · -- force-introduce x_0
      rw [if_pos hzero] at hr
      have hlen0 : s.varStack.length = 0 := by
        have := congrArg List.length huv
        simp at this
        omega
      have hvs0 : s.varStack = [] := List.length_eq_zero.mp hlen0
      have huv0 : s.usedVars = [] := by rw [huv, hlen0]; rfl
      rw [hvs0, huv0] at hr
      cases hr
      refine ⟨⟨by simp [insertVar, List.range_succ], by simp [List.range_succ]⟩,
        ?_, ?_, ?_, ?_, ?_⟩
      · simp only [List.nil_append, List.length_singleton]
        exact Nat.le_max_left 1 config.maxVariables
      · simp [hvs0]
      · simp [exprDepth]
      · intro n hn
        simp only [exprVarNames, List.mem_singleton] at hn
        exact ⟨0, by simp [insertVar], hn⟩
      · intro i hi
        simp [insertVar] at hi
        subst hi
        exact Or.inr (by simp [exprVarNames])
    rw [if_neg hzero] at hr
    have hlpos : 0 < s.usedVars.length := Nat.pos_of_ne_zero hzero
    by_cases havail : config.maxVariables - s.varStack.length = 0
    · -- must reuse an existing index
      rw [if_pos havail] at hr
      cases hir : intInRange 0 (s.usedVars.length - 1)
          { data := rest, usedVars := s.usedVars, varStack := s.varStack } with
      | err a => rw [hir] at hr; cases hr
      | panicked => rw [hir] at hr; cases hr
      | ok idx s2 =>
        rw [hir] at hr
        simp only at hr
        obtain ⟨h2u, h2v, _, hidx⟩ := intInRange_ok hir
        have hidx' : idx < s.usedVars.length := by omega
        rw [List.get?_eq_get hidx'] at hr
        simp only at hr
        cases hr
        have hmem : s.usedVars.get ⟨idx, hidx'⟩ ∈ s.usedVars := List.get_mem _ _ _
        refine ⟨⟨?_, ?_⟩, ?_, ?_, ?_, ?_, ?_⟩
        · rw [h2u, h2v]; exact huv
        · rw [h2v]; exact hvs
        · rw [h2v]; exact hk
        · rw [h2v]
        · simp [exprDepth]
        · intro n hn
          simp only [exprVarNames, List.mem_singleton] at hn
          exact ⟨_, by rw [h2u]; exact hmem, hn⟩
        · intro i hi; rw [h2u] at hi; exact Or.inl hi
    · rw [if_neg havail] at hr
      cases hrd : ratioDraw s.usedVars.length
          (s.usedVars.length + (config.maxVariables - s.varStack.length))
          { data := rest, usedVars := s.usedVars, varStack := s.varStack } with
      | err a => rw [hrd] at hr; cases hr
      | panicked => rw [hrd] at hr; cases hr
      | ok reuse s2 =>
        rw [hrd] at hr
        simp only at hr
        obtain ⟨h2u, h2v⟩ := ratioDraw_ok hrd
        by_cases hreuse : reuse = true
        · -- probabilistic reuse of an existing index
          rw [if_pos hreuse] at hr
          cases hir : intInRange 0 (s2.usedVars.length - 1) s2 with
          | err a => rw [hir] at hr; cases hr
          | panicked => rw [hir] at hr; cases hr
          | ok idx s3 =>
            rw [hir] at hr
            simp only at hr
            obtain ⟨h3u, h3v, _, hidx⟩ := intInRange_ok hir
            have hlpos2 : 0 < s2.usedVars.length := by rw [h2u]; exact hlpos
            have hidx' : idx < s2.usedVars.length := by omega
            rw [List.get?_eq_get hidx'] at hr
            simp only at hr
            cases hr
            have hmem : s2.usedVars.get ⟨idx, hidx'⟩ ∈ s2.usedVars := List.get_mem _ _ _
            refine ⟨⟨?_, ?_⟩, ?_, ?_, ?_, ?_, ?_⟩
            · rw [h3u, h2u, h3v, h2v]; exact huv
            · rw [h3v, h2v]; exact hvs
            · rw [h3v, h2v]; exact hk
            · rw [h3v, h2v]
            · simp [exprDepth]
            · intro n hn
              simp only [exprVarNames, List.mem_singleton] at hn
              exact ⟨_, by rw [h3u]; exact hmem, hn⟩
            · intro i hi; rw [h3u, h2u] at hi; exact Or.inl hi
        · -- introduce the next fresh index var_stack.len()
          rw [if_neg hreuse] at hr
          cases hr
          have hpush : insertVar s2.usedVars s2.varStack.length =
                List.range (s2.varStack.length + 1)
              ∧ s2.varStack ++ [s2.varStack.length] =
                List.range (s2.varStack.length + 1) :=
            varInv_push (by rw [h2u, h2v]; exact huv) (by rw [h2v]; exact hvs)
          refine ⟨⟨?_, ?_⟩, ?_, ?_, ?_, ?_, ?_⟩
          · simpa using hpush.1
          · simpa using hpush.2
          · have hlt : s.varStack.length < config.maxVariables := by omega
            have hmax := Nat.le_max_right 1 config.maxVariables
            simp only [List.length_append, List.length_singleton, h2v]
            omega
          · simp [h2v]
          · simp [exprDepth]
          · intro n hn
            simp only [exprVarNames, List.mem_singleton] at hn
            refine ⟨s2.varStack.length, ?_, hn⟩
            rw [insertVar]
            split
            · assumption
            · simp
          · intro i hi
            rw [insertVar] at hi
            split at hi
            · rw [h2u] at hi; exact Or.inl hi
            · rcases List.mem_append.mp hi with hi | hi
              · rw [h2u] at hi; exact Or.inl hi
              · simp only [List.mem_singleton] at hi
                subst hi
                exact Or.inr (by simp [exprVarNames])

theorem ratioDraw_ne_panicked (a b : Nat) (s : GenState) :
    ratioDraw a b s ≠ GenOut.panicked := by
  unfold ratioDraw; cases s.data <;> simp

theorem intInRange_ne_panicked (lo hi : Nat) (s : GenState) :
    intInRange lo hi s ≠ GenOut.panicked := by
  unfold intInRange; cases s.data <;> simp

theorem arbitraryF64_ne_panicked (s : GenState) :
    arbitraryF64 s ≠ GenOut.panicked := by
  unfold arbitraryF64; split <;> simp

theorem generateTerminal_nopanic (config : AstGenConfig) (s : GenState)
    (hInv : VarInv s) (hk : s.varStack.length ≤ config.maxVariables) :
    generateTerminal config s ≠ GenOut.panicked := by
  intro hr
  obtain ⟨huv, hvs⟩ := hInv
  unfold generateTerminal at hr
  cases hd : s.data with
  | nil => rw [ratioDraw, hd] at hr; cases hr
  | cons b rest =>
  rw [ratioDraw, hd] at hr
  simp only at hr
  by_cases hV : decide (b % 5 < 2) = true
  case neg =>
    rw [if_neg hV, intInRange] at hr
    cases rest with
    | nil => simp only at hr; cases hr
    | cons c rest2 =>
      simp only at hr
      split at hr
      · cases hr
      · cases hr
      · cases hr
      · split at hr
        · cases hr
        · rename_i heq
          exact arbitraryF64_ne_panicked _ heq
        · cases hr
      · split at hr
        · cases hr
        · rename_i heq
          exact arbitraryF64_ne_panicked _ heq
        · cases hr
  case pos =>
    rw [if_pos hV] at hr
    by_cases hempty : rest.isEmpty
    · rw [if_pos hempty] at hr; cases hr
    rw [if_neg hempty,
      if_neg (by omega : ¬ config.maxVariables < s.varStack.length)] at hr
    by_cases hzero : s.usedVars.length = 0
    · rw [if_pos hzero] at hr; cases hr
    rw [if_neg hzero] at hr
    have hlpos : 0 < s.usedVars.length := Nat.pos_of_ne_zero hzero
    by_cases havail : config.maxVariables - s.varStack.length = 0
    · rw [if_pos havail] at hr
      split at hr
      · cases hr
      · rename_i heq
        exact intInRange_ne_panicked _ _ _ heq
      · rename_i idx s2 heq
        obtain ⟨h2u, h2v, _, hidx⟩ := intInRange_ok heq
        have hidx' : idx < s.usedVars.length := by omega
        rw [List.get?_eq_get hidx'] at hr
        simp only at hr
        cases hr
    · rw [if_neg havail] at hr
      split at hr
      · cases hr
      · rename_i heq
        exact ratioDraw_ne_panicked _ _ _ heq
      · rename_i reuse s2 heq
        by_cases hreuse : reuse = true
        · rw [if_pos hreuse] at hr
          split at hr
          · cases hr
          · rename_i heq2
            exact intInRange_ne_panicked _ _ _ heq2
          · rename_i idx s3 heq2
            obtain ⟨h3u, h3v, _, hidx⟩ := intInRange_ok heq2
            obtain ⟨h2u, h2v⟩ := ratioDraw_ok heq
            have hlpos2 : 0 < s2.usedVars.length := by rw [h2u]; exact hlpos
            have hidx' : idx < s2.usedVars.length := by omega
            rw [List.get?_eq_get hidx'] at hr
            simp only at hr
            cases hr
        · rw [if_neg hreuse] at hr
          cases hr

theorem VarInv_of_eq {a b : GenState} (h : VarInv b) (hu : a.usedVars = b.usedVars)
    (hv : a.varStack = b.varStack) : VarInv a := by
  constructor
  · rw [hu, hv]; exact h.1
  · rw [hv]; exact h.2

theorem SuccessProps_of_eq {config : AstGenConfig} {depth : Nat}
    {s t : GenState} {r : GenOut (Expr Unit)} (h : SuccessProps config depth t r)
    (hu : t.usedVars = s.usedVars) (hv : t.varStack = s.varStack) :
    SuccessProps config depth s r := by
  intro e s' hok
  obtain ⟨p1, p2, p3, p4, p5, p6⟩ := h e s' hok
  exact ⟨p1, p2, hv ▸ p3, p4, p5, fun i hi => (p6 i hi).imp (fun h' => hu ▸ h') id⟩

theorem usedVars_mono {a b : GenState} (ha : VarInv a) (hb : VarInv b)
    (h : a.varStack.length ≤ b.varStack.length) :
    ∀ i ∈ a.usedVars, i ∈ b.usedVars := by
  intro i hi
  rw [ha.1, List.mem_range] at hi
  rw [hb.1, List.mem_range]
  omega

/-- Master invariant of the recursive generator, by induction on the depth
budget: from a state satisfying the variable invariant, a successful run
preserves it (with all the `SuccessProps` guarantees), and when
`max_variables ≥ 1` the run never panics. -/
theorem generator_invariants (config : AstGenConfig) :
    ∀ (N depth : Nat) (s : GenState), config.maxDepth - depth ≤ N →
      VarInv s → s.varStack.length ≤ max 1 config.maxVariables →
      SuccessProps config depth s (generateExprArbitrary config depth s)
      ∧ (1 ≤ config.maxVariables →
          generateExprArbitrary config depth s ≠ GenOut.panicked) := by
  intro N
  induction N with
  | zero =>
      intro depth s hN hInv hk
      have hd : config.maxDepth ≤ depth := by omega
      rw [generateExprArbitrary.eq_def, dif_pos hd]
      exact ⟨generateTerminal_success config depth s hInv hk,
        fun hmv => generateTerminal_nopanic config s hInv
          (by rwa [max_eq_right hmv] at hk)⟩
  | succ n ih =>
      intro depth s hN hInv hk
      by_cases hd : config.maxDepth ≤ depth
      · rw [generateExprArbitrary.eq_def, dif_pos hd]
        exact ⟨generateTerminal_success config depth s hInv hk,
          fun hmv => generateTerminal_nopanic config s hInv
            (by rwa [max_eq_right hmv] at hk)⟩
      · rw [generateExprArbitrary.eq_def, dif_neg hd]
        cases hi0 : intInRange 0 2 s with
        | err a => exact ⟨(fun e s' h => nomatch h), (fun _ h => nomatch h)⟩
        | panicked => exact absurd hi0 (intInRange_ne_panicked _ _ _)
        | ok c s1 =>
          obtain ⟨h1u, h1v, _, hcb⟩ := intInRange_ok hi0
          have hInv1 : VarInv s1 := VarInv_of_eq hInv h1u h1v
          have hk1 : s1.varStack.length ≤ max 1 config.maxVariables := by
            rw [h1v]; exact hk
          have hterm : SuccessProps config depth s (generateTerminal config s1)
              ∧ (1 ≤ config.maxVariables →
                  generateTerminal config s1 ≠ GenOut.panicked) := by
            refine ⟨SuccessProps_of_eq
              (generateTerminal_success config depth s1 hInv1 hk1) h1u h1v, ?_⟩
            intro hmv
            refine generateTerminal_nopanic config s1 hInv1 ?_
            rw [h1v]
            rwa [max_eq_right hmv] at hk
          have hunary : ∀ (pf : depth < config.maxDepth),
              SuccessProps config depth s (generateUnary config depth pf s1)
              ∧ (1 ≤ config.maxVariables →
                  generateUnary config depth pf s1 ≠ GenOut.panicked) := by
            intro pf
            have IH := ih (depth + 1) s1 (by omega) hInv1 hk1
            rw [generateUnary.eq_def]
            split
            · exact ⟨(fun e s' h => nomatch h), (fun _ h => nomatch h)⟩
            · rename_i hrec
              exact ⟨(fun e s' h => nomatch h), (fun hmv => absurd hrec (IH.2 hmv))⟩
            · rename_i sub s2 hrec
              obtain ⟨q1, q2, q3, q4, q5, q6⟩ := IH.1 sub s2 hrec
              split
              · exact ⟨(fun e s' h => nomatch h), (fun _ h => nomatch h)⟩
              · rename_i hi5
                exact absurd hi5 (intInRange_ne_panicked _ _ _)
              · rename_i c2 s3 hi5
                obtain ⟨h3u, h3v, _, _⟩ := intInRange_ok hi5
                refine ⟨?_, (fun _ h => nomatch h)⟩
                intro e s' hok
                cases hok
                refine ⟨VarInv_of_eq q1 h3u h3v, by rw [h3v]; exact q2, ?_, ?_, ?_, ?_⟩
                · rw [h3v, ← h1v]; exact q3
                · simp only [exprDepth]
                  omega
                · intro nm hnm
                  simp only [exprVarNames] at hnm
                  obtain ⟨i, hi, hni⟩ := q5 nm hnm
                  exact ⟨i, by rw [h3u]; exact hi, hni⟩
                · intro i hi
                  rw [h3u] at hi
                  rcases q6 i hi with hi' | hi'
                  · rw [h1u] at hi'; exact Or.inl hi'
                  · exact Or.inr (by simpa [exprVarNames] using hi')
          have hbinary : ∀ (pf : depth < config.maxDepth),
              SuccessProps config depth s (generateBinary config depth pf s1)
              ∧ (1 ≤ config.maxVariables →
                  generateBinary config depth pf s1 ≠ GenOut.panicked) := by
            intro pf
            have IH := ih (depth + 1) s1 (by omega) hInv1 hk1
            rw [generateBinary.eq_def]
            split
            · exact ⟨(fun e s' h => nomatch h), (fun _ h => nomatch h)⟩
            · rename_i hrec
              exact ⟨(fun e s' h => nomatch h), (fun hmv => absurd hrec (IH.2 hmv))⟩
            · rename_i left s2 hrec
              obtain ⟨q1, q2, q3, q4, q5, q6⟩ := IH.1 left s2 hrec
              have IH2 := ih (depth + 1) s2 (by omega) q1 q2
              split
              · exact ⟨(fun e s' h => nomatch h), (fun _ h => nomatch h)⟩
              · rename_i hrec2
                exact ⟨(fun e s' h => nomatch h), (fun hmv => absurd hrec2 (IH2.2 hmv))⟩
              · rename_i right s3 hrec2
                obtain ⟨r1, r2, r3, r4, r5, r6⟩ := IH2.1 right s3 hrec2
                split
                · exact ⟨(fun e s' h => nomatch h), (fun _ h => nomatch h)⟩
                · rename_i hiB
                  exact absurd hiB (intInRange_ne_panicked _ _ _)
                · rename_i cB s4 hiB
                  obtain ⟨h4u, h4v, _, _⟩ := intInRange_ok hiB
                  refine ⟨?_, (fun _ h => nomatch h)⟩
                  intro e s' hok
                  cases hok
                  refine ⟨VarInv_of_eq r1 h4u h4v, by rw [h4v]; exact r2, ?_, ?_, ?_, ?_⟩
                  · rw [h4v, ← h1v]; omega
                  · simp only [exprDepth]
                    omega
                  · intro nm hnm
                    simp only [exprVarNames, List.mem_append] at hnm
                    rcases hnm with hnm | hnm
                    · obtain ⟨i, hi, hni⟩ := q5 nm hnm
                      have hmem3 : i ∈ s3.usedVars := usedVars_mono q1 r1 r3 i hi
                      exact ⟨i, by rw [h4u]; exact hmem3, hni⟩
                    · obtain ⟨i, hi, hni⟩ := r5 nm hnm
                      exact ⟨i, by rw [h4u]; exact hi, hni⟩
                  · intro i hi
                    rw [h4u] at hi
                    rcases r6 i hi with hi' | hi'
                    · rcases q6 i hi' with hi'' | hi''
                      · rw [h1u] at hi''; exact Or.inl hi''
                      · exact Or.inr (by simp [exprVarNames, hi''])
                    · exact Or.inr (by simp [exprVarNames, hi'])
          rcases c with _ | _ | m
          · exact hterm
          · exact hunary (by omega)
          · exact hbinary (by omega)

/-- C9: for every config and byte buffer from which generation succeeds, the
resulting expression tree has depth at most `max_depth`: terminals are emitted
once the depth budget is reached, so no unary/binary chain exceeds it. -/
theorem c9_depth_bound (data : List Nat) (config : AstGenConfig)
    (g : GeneratedExpr) (s' : GenState)
    (h : generateFromBytes data config = GenOut.ok g s') :
    exprDepth g.expr ≤ config.maxDepth := by
  unfold generateFromBytes at h
  cases hg : generateExprArbitrary config 0 ⟨data, [], []⟩ with
  | err a => rw [hg] at h; cases h
  | panicked => rw [hg] at h; cases h
  | ok expr s =>
    rw [hg] at h
    simp only at h
    cases h
    have hm := (generator_invariants config config.maxDepth 0 ⟨data, [], []⟩
      (by omega) ⟨rfl, rfl⟩ (by simp)).1 expr s' hg
    simpa using hm.2.2.2.1

/-- C9 witness: the depth bound applied to a concrete successful generation
(a single variable terminal under `max_depth = 0`). -/
theorem c9_depth_bound_witness :
    exprDepth (Expr.id () ("x_" ++ toString 0) : Expr Unit) ≤ 0 := by
  have hE : generateFromBytes [0, 0] ⟨0, 2, true, true, false⟩ =
      GenOut.ok ⟨Expr.id () ("x_" ++ toString 0), [0], 1⟩ ⟨[0], [0], [0]⟩ := by
    simp [generateFromBytes, generateExprArbitrary, generateTerminal, ratioDraw,
      insertVar]
  exact c9_depth_bound [0, 0] ⟨0, 2, true, true, false⟩ _ _ hE

/-- C4 (counterexample): with `max_variables = 0` generation can still succeed
after force-introducing `x_0`, so `num_inputs = 1 > 0 = max_variables` and the
claim fails for that config. -/
theorem c4_max_variables_counterexample :
    generateFromBytes [0, 0] ⟨0, 0, true, true, false⟩ =
      GenOut.ok ⟨Expr.id () ("x_" ++ toString 0), [0], 1⟩ ⟨[0], [0], [0]⟩
    ∧ (⟨0, 0, true, true, false⟩ : AstGenConfig).maxVariables <
        (⟨Expr.id () ("x_" ++ toString 0), [0], 1⟩ : GeneratedExpr).numInputs := by
  constructor
  · simp [generateFromBytes, generateExprArbitrary, generateTerminal, ratioDraw,
      insertVar]
  · decide

/-- C4 (amended): for every successful generation, `used_vars` is exactly
`{0, …, num_inputs-1}` with no gaps, `num_inputs` is the number of distinct
variable indices referenced by the expression, and provided
`max_variables ≥ 1` also `num_inputs ≤ max_variables` (with
`max_variables = 0` a single forced `x_0` can still exceed the cap). -/
theorem c4_used_vars_amended (data : List Nat) (config : AstGenConfig)
    (g : GeneratedExpr) (s' : GenState) (hmv : 1 ≤ config.maxVariables)
    (h : generateFromBytes data config = GenOut.ok g s') :
    g.usedVars = List.range g.numInputs
    ∧ g.numInputs = g.usedVars.length
    ∧ g.numInputs ≤ config.maxVariables
    ∧ (∀ n, n ∈ exprVarNames g.expr ↔ ∃ i, i < g.numInputs ∧ n = "x_" ++ toString i) := by
  unfold generateFromBytes at h
  cases hg : generateExprArbitrary config 0 ⟨data, [], []⟩ with
  | err a => rw [hg] at h; cases h
  | panicked => rw [hg] at h; cases h
  | ok expr s =>
    rw [hg] at h
    simp only at h
    cases h
    obtain ⟨p1, p2, _, _, p5, p6⟩ := (generator_invariants config config.maxDepth 0
      ⟨data, [], []⟩ (by omega) ⟨rfl, rfl⟩ (by simp)).1 expr s' hg
    have hlen : s'.usedVars.length = s'.varStack.length := by
      rw [p1.1]; simp
    refine ⟨by rw [hlen]; exact p1.1, rfl, ?_, ?_⟩
    · show s'.usedVars.length ≤ config.maxVariables
      rw [hlen]
      rwa [max_eq_right hmv] at p2
    · intro n
      constructor
      · intro hn
        obtain ⟨i, hi, hni⟩ := p5 n hn
        refine ⟨i, ?_, hni⟩
        rw [p1.1, List.mem_range, ← hlen] at hi
        exact hi
      · intro ⟨i, hi, hni⟩
        have hiu : i ∈ s'.usedVars := by
          rw [p1.1, List.mem_range, ← hlen]
          exact hi
        rcases p6 i hiu with hfalse | hname
        · simp at hfalse
        · rw [hni]; exact hname

/-- C4 witness: the amended statement applied to a concrete generation with
`max_variables = 2`. -/
theorem c4_used_vars_amended_witness :
    ([0] : List Nat) = List.range 1
    ∧ (1 : Nat) = ([0] : List Nat).length
    ∧ (1 : Nat) ≤ 2
    ∧ (∀ n, n ∈ exprVarNames (Expr.id () ("x_" ++ toString 0) : Expr Unit) ↔
        ∃ i, i < 1 ∧ n = "x_" ++ toString i) :=
  c4_used_vars_amended [0, 0] ⟨0, 2, true, true, false⟩
    ⟨Expr.id () ("x_" ++ toString 0), [0], 1⟩ ⟨[0], [0], [0]⟩ (by decide)
    (by simp [generateFromBytes, generateExprArbitrary, generateTerminal, ratioDraw,
      insertVar])

/-- C10: for every byte buffer and config with `max_variables ≥ 1`, generation
never panics: the invariant `var_stack.len() ≤ max_variables` (and
`used_vars` equal to the stack's index set) holds at every terminal draw, so
the `usize` subtraction `max_variables - var_stack.len()` cannot underflow,
and no other panic source is reachable. -/
theorem c10_no_panic (data : List Nat) (config : AstGenConfig)
    (hmv : 1 ≤ config.maxVariables) :
    generateFromBytes data config ≠ GenOut.panicked
    ∧ (∀ g s', generateFromBytes data config = GenOut.ok g s' →
        s'.usedVars = s'.varStack) := by
  have hm := generator_invariants config config.maxDepth 0 ⟨data, [], []⟩
    (by omega) ⟨rfl, rfl⟩ (by simp)
  constructor
  · intro h
    unfold generateFromBytes at h
    cases hg : generateExprArbitrary config 0 ⟨data, [], []⟩ with
    | err a => rw [hg] at h; cases h
    | panicked => exact hm.2 hmv hg
    | ok expr s => rw [hg] at h; cases h
  · intro g s' h
    unfold generateFromBytes at h
    cases hg : generateExprArbitrary config 0 ⟨data, [], []⟩ with
    | err a => rw [hg] at h; cases h
    | panicked => rw [hg] at h; cases h
    | ok expr s =>
      rw [hg] at h
      simp only at h
      cases h
      obtain ⟨p1, _⟩ := (hm.1) expr s' hg
      exact p1.1.trans p1.2.symm

/-- C10 witness: the no-panic statement at a concrete buffer and config. -/
theorem c10_no_panic_witness :
    generateFromBytes [0, 0] ⟨0, 2, true, true, false⟩ ≠ GenOut.panicked
    ∧ (∀ g s', generateFromBytes [0, 0] ⟨0, 2, true, true, false⟩ = GenOut.ok g s' →
        s'.usedVars = s'.varStack) :=
  c10_no_panic [0, 0] ⟨0, 2, true, true, false⟩ (by decide)

/-- C5: whenever the generator needs a random decision and the byte buffer is
exhausted, generation fails with `NotEnoughData` — both the recursive builder
and the terminal generator fail on an empty buffer from any internal state,
and no code path substitutes a default. -/
theorem c5_exhausted_hard_failure (config : AstGenConfig) (depth : Nat)
    (s : GenState) (h : s.data = []) :
    generateExprArbitrary config depth s = GenOut.err ArbError.notEnoughData
    ∧ generateTerminal config s = GenOut.err ArbError.notEnoughData := by
  have hterm : generateTerminal config s = GenOut.err ArbError.notEnoughData := by
    unfold generateTerminal
    rw [ratioDraw, h]
  refine ⟨?_, hterm⟩
  rw [generateExprArbitrary.eq_def]
  by_cases hd : config.maxDepth ≤ depth
  · rw [dif_pos hd]; exact hterm
  · rw [dif_neg hd, intInRange, h]

/-- C5 witness: exhaustion failure on the empty buffer. -/
theorem c5_exhausted_hard_failure_witness :
    generateExprArbitrary ⟨4, 2, true, true, false⟩ 0 ⟨[], [], []⟩ =
      GenOut.err ArbError.notEnoughData
    ∧ generateTerminal ⟨4, 2, true, true, false⟩ ⟨[], [], []⟩ =
      GenOut.err ArbError.notEnoughData :=
  c5_exhausted_hard_failure ⟨4, 2, true, true, false⟩ 0 ⟨[], [], []⟩ rfl

/-- C7 (counterexample): with `allow_log = true` the set of unary operators
producible from the draw range `0..=5` is exactly
{neg, sin, cos, exp, sqrt, log} and does not contain abs — the `_ => Op1::Abs`
match arm is dead, contradicting the claim that abs is producible. -/
theorem c7_abs_unreachable_counterexample :
    (List.range 6).map (unaryOpFromChoice true) =
      [Op1.neg, Op1.sin, Op1.cos, Op1.exp, Op1.sqrt, Op1.log]
    ∧ Op1.abs ∉ (List.range 6).map (unaryOpFromChoice true) := by
  decide

/-- C7 (amended): a generated unary node's operator is drawn uniformly from
{neg, sin, cos, exp, sqrt, log} via a choice in `0..=5`; when `allow_log` is
false the log choice (5) is substituted by sqrt; abs (and tan) are never
produced.  Every unary node generated by `generate_unary` carries an operator
of this form for some choice `< 6`. -/
theorem c7_unary_selection_amended (allow_log : Bool) :
    ((List.range 6).map (unaryOpFromChoice allow_log) =
      if allow_log then [Op1.neg, Op1.sin, Op1.cos, Op1.exp, Op1.sqrt, Op1.log]
      else [Op1.neg, Op1.sin, Op1.cos, Op1.exp, Op1.sqrt, Op1.sqrt])
    ∧ (∀ c, unaryOpFromChoice allow_log c ≠ Op1.abs ∧
        unaryOpFromChoice allow_log c ≠ Op1.tan ∨ 6 ≤ c)
    ∧ (∀ (config : AstGenConfig) (depth : Nat) (pf : depth < config.maxDepth)
        (s : GenState) (e : Expr Unit) (s' : GenState),
        generateUnary config depth pf s = GenOut.ok e s' →
        ∃ sub c, c < 6 ∧ e = Expr.unOp () (unaryOpFromChoice config.allowLog c) sub) := by
  refine ⟨by cases allow_log <;> decide, ?_, ?_⟩
  · intro c
    by_cases hc : c < 6
    · left
      interval_cases c <;> cases allow_log <;> decide
    · right; omega
  · intro config depth pf s e s' h
    rw [generateUnary.eq_def] at h
    split at h
    · cases h
    · cases h
    · rename_i sub s2 hrec
      split at h
      · cases h
      · cases h
      · rename_i c2 s3 hi5
        obtain ⟨_, _, _, hc⟩ := intInRange_ok hi5
        cases h
        exact ⟨sub, c2, by omega, rfl⟩

/-- C7 witness: the unary-node characterization applied to a concrete
generated unary node (`neg` of the literal 0). -/
theorem c7_unary_selection_amended_witness :
    ∃ sub c, c < 6 ∧
      (Expr.unOp () Op1.neg (Expr.number () (F.fin 0)) : Expr Unit) =
        Expr.unOp () (unaryOpFromChoice (⟨1, 2, true, true, false⟩ : AstGenConfig).allowLog c) sub := by
  refine (c7_unary_selection_amended false).2.2 ⟨1, 2, true, true, false⟩ 0 (by decide)
    ⟨[4, 0, 0], [], []⟩ _ ⟨[], [], []⟩ ?_
  have h1 : generateExprArbitrary ⟨1, 2, true, true, false⟩ (0 + 1) ⟨[4, 0, 0], [], []⟩ =
      GenOut.ok (Expr.number () (F.fin 0)) ⟨[0], [], []⟩ := by
    simp [generateExprArbitrary, generateTerminal, ratioDraw, intInRange]
  rw [generateUnary.eq_def, h1]
  simp [intInRange, unaryOpFromChoice]

/-- C6 (counterexample): with division disabled and power enabled, the choice
range is `0..=3` and choice 3 falls through the guarded match to the
`_ => Op2::Add` default, so pow is unreachable although enabled, and add is
drawn twice (the draw is not uniform over the enabled set). -/
theorem c6_pow_unreachable_counterexample :
    numOps ⟨4, 2, false, true, false⟩ = 4
    ∧ (List.range (numOps ⟨4, 2, false, true, false⟩)).map
        (binOpFromChoice ⟨4, 2, false, true, false⟩) =
        [Op2.add, Op2.sub, Op2.mul, Op2.add]
    ∧ Op2.pow ∉ (List.range (numOps ⟨4, 2, false, true, false⟩)).map
        (binOpFromChoice ⟨4, 2, false, true, false⟩)
    ∧ (⟨4, 2, false, true, false⟩ : AstGenConfig).allowPower = true := by
  decide

/-- C6 (amended): the binary operator is drawn from a choice in
`0..=num_ops-1` with `num_ops = 3 + div? + pow?`; add, sub, mul are always
producible, div exactly when `allow_division`, and pow exactly when
`allow_power AND allow_division` (with division disabled but power enabled
the pow slot falls back to add, so add is drawn with double weight); a
disabled operator is never produced.  Every binary node generated by
`generate_binary` carries an operator of this form for some choice
`< num_ops`. -/
theorem c6_binary_selection_amended (config : AstGenConfig) :
    ((List.range (numOps config)).map (binOpFromChoice config) =
      if config.allowDivision then
        if config.allowPower then [Op2.add, Op2.sub, Op2.mul, Op2.div, Op2.pow]
        else [Op2.add, Op2.sub, Op2.mul, Op2.div]
      else
        if config.allowPower then [Op2.add, Op2.sub, Op2.mul, Op2.add]
        else [Op2.add, Op2.sub, Op2.mul])
    ∧ ((Op2.div ∈ (List.range (numOps config)).map (binOpFromChoice config)) ↔
        config.allowDivision = true)
    ∧ ((Op2.pow ∈ (List.range (numOps config)).map (binOpFromChoice config)) ↔
        (config.allowPower = true ∧ config.allowDivision = true))
    ∧ (∀ (depth : Nat) (pf : depth < config.maxDepth) (s : GenState)
        (e : Expr Unit) (s' : GenState),
        generateBinary config depth pf s = GenOut.ok e s' →
        ∃ l r c, c < numOps config ∧ e = Expr.binOp () (binOpFromChoice config c) l r) := by
  have hmap : (List.range (numOps config)).map (binOpFromChoice config) =
      if config.allowDivision then
        if config.allowPower then [Op2.add, Op2.sub, Op2.mul, Op2.div, Op2.pow]
        else [Op2.add, Op2.sub, Op2.mul, Op2.div]
      else
        if config.allowPower then [Op2.add, Op2.sub, Op2.mul, Op2.add]
        else [Op2.add, Op2.sub, Op2.mul] := by
    cases hdv : config.allowDivision <;> cases hpw : config.allowPower <;>
      simp [numOps, hdv, hpw, List.range_succ, binOpFromChoice]
  refine ⟨hmap, ?_, ?_, ?_⟩
  · rw [hmap]
    cases hdv : config.allowDivision <;> cases hpw : config.allowPower <;> simp
  · rw [hmap]
    cases hdv : config.allowDivision <;> cases hpw : config.allowPower <;> simp
  · intro depth pf s e s' h
    have hops : 3 ≤ numOps config := by
      unfold numOps
      split <;> split <;> omega
    rw [generateBinary.eq_def] at h
    split at h
    · cases h
    · cases h
    · rename_i left s2 hrec
      split at h
      · cases h
      · cases h
      · rename_i right s3 hrec2
        split at h
        · cases h
        · cases h
        · rename_i cB s4 hiB
          obtain ⟨_, _, _, hc⟩ := intInRange_ok hiB
          cases h
          exact ⟨left, right, cB, by omega, rfl⟩

/-- C6 witness: the binary-node characterization applied to a concrete
generated binary node (`add` of the literals 0 and 1). -/
theorem c6_binary_selection_amended_witness :
    ∃ l r c, c < numOps ⟨1, 2, true, true, false⟩ ∧
      (Expr.binOp () Op2.add (Expr.number () (F.fin 0)) (Expr.number () (F.fin 1)) : Expr Unit) =
        Expr.binOp () (binOpFromChoice ⟨1, 2, true, true, false⟩ c) l r := by
  refine (c6_binary_selection_amended ⟨1, 2, true, true, false⟩).2.2.2 0 (by decide)
    ⟨[4, 0, 4, 1, 0], [], []⟩ _ ⟨[], [], []⟩ ?_
  have h1 : generateExprArbitrary ⟨1, 2, true, true, false⟩ (0 + 1)
      ⟨[4, 0, 4, 1, 0], [], []⟩ =
      GenOut.ok (Expr.number () (F.fin 0)) ⟨[4, 1, 0], [], []⟩ := by
    simp [generateExprArbitrary, generateTerminal, ratioDraw, intInRange]
  have h2 : generateExprArbitrary ⟨1, 2, true, true, false⟩ (0 + 1)
      ⟨[4, 1, 0], [], []⟩ =
      GenOut.ok (Expr.number () (F.fin 1)) ⟨[0], [], []⟩ := by
    simp [generateExprArbitrary, generateTerminal, ratioDraw, intInRange]
  simp [generateBinary.eq_def, h1, h2, intInRange, numOps, binOpFromChoice]

end AdTraitFuzzer
